import Mathlib

/-!
Verification of the PII detection-and-redaction engine
(`detector_rahul_kumar.py`): a shallow embedding of the classifier
(`process_record`) and the masker (`mask_pii_value`), together with
theorems about the flagging rules, the masking formulas, the frame
conditions of redaction, and totality.

Strings are modelled through their character lists; Python regular
expression searches are modelled as bounded existentials over match
positions, with `\b` word boundaries made explicit (ASCII word
characters, as all inputs of interest are ASCII).
-/

namespace Detector

/-- A JSON-scalar field value: string, number, or boolean
(the value shapes the spec's data model admits). -/
inductive PValue where
  | str (s : String)
  | num (n : Int)
  | bool (b : Bool)
deriving DecidableEq

/-- Python `str(value)`: identity on strings, decimal form of numbers,
`True`/`False` for booleans. -/
def PValue.toText : PValue → String
  | .str s => s
  | .num n => toString n
  | .bool b => if b then ("True") else ("False")

/-- A record: the dictionary parsed from one row's JSON, as an ordered
association list (dict keys are unique and ordered by insertion). -/
abbrev Record := List (String × PValue)

/-- Regex `\w` (ASCII): letter, digit or underscore. -/
def isWordChar (c : Char) : Bool := c.isAlphanum || c = '_'

/-- Regex `\b` at position `p` of list `l`: the word-character status of
the left neighbour differs from that of the right neighbour (a missing
neighbour counts as non-word). -/
def boundaryAt (l : List Char) (p : Nat) : Bool :=
  (decide (0 < p) && isWordChar (l.getD (p - 1) ' '))
    != (decide (p < l.length) && isWordChar (l.getD p ' '))

/-- Model of `re.search(r'\b\d{n}\b', l)` succeeding: some position `i` starts a run
of exactly `n` digits delimited by word boundaries. -/
def boundedDigitRun (n : Nat) (l : List Char) : Bool :=
  (List.range (l.length + 1)).any fun i =>
    decide (i + n ≤ l.length)
      && ((l.drop i).take n).all Char.isDigit
      && boundaryAt l i
      && boundaryAt l (i + n)

/-- Model of `re.search(r'\b[A-Z][0-9]{7}\b', l)` succeeding: an uppercase letter
followed by 7 digits, delimited by word boundaries. -/
def boundedPassportRun (l : List Char) : Bool :=
  (List.range (l.length + 1)).any fun i =>
    decide (i + 8 ≤ l.length)
      && (l.getD i ' ').isUpper
      && ((l.drop (i + 1)).take 7).all Char.isDigit
      && boundaryAt l i
      && boundaryAt l (i + 8)

/-- Local-part character class `[A-Za-z0-9._%+-]` of `EMAIL_REGEX`. -/
def isLocalChar (c : Char) : Bool :=
  c.isAlphanum || c = '.' || c = '_' || c = '%' || c = '+' || c = '-'

/-- Domain character class `[A-Za-z0-9.-]` of `EMAIL_REGEX`. -/
def isDomainChar (c : Char) : Bool :=
  c.isAlphanum || c = '.' || c = '-'

/-- Top-level-segment character class `[A-Z|a-z]` of `EMAIL_REGEX`
(the `|` inside the class is a literal bar). -/
def isTldChar (c : Char) : Bool := c.isAlpha || c = '|'

/-- Model of `EMAIL_REGEX.match(l)` succeeding (anchored at position 0):
`\b`, a non-empty run of local-part characters, `@`, a non-empty run of
domain characters, `.`, at least two top-level characters, `\b`.
A match exists iff some decomposition of a prefix fits the pattern. -/
def emailMatch (l : List Char) : Bool :=
  boundaryAt l 0 &&
    (List.range (l.length + 1)).any fun a =>
      decide (1 ≤ a)
        && ((l.take a).all isLocalChar)
        && decide (a < l.length) && (l.getD a ' ' == '@')
        && (List.range (l.length + 1)).any fun b =>
          decide (1 ≤ b)
            && ((l.drop (a + 1)).take b).all isDomainChar
            && decide (a + 1 + b < l.length) && (l.getD (a + 1 + b) ' ' == '.')
            && (List.range (l.length + 1)).any fun c =>
              decide (2 ≤ c)
                && decide (a + b + 2 + c ≤ l.length)
                && ((l.drop (a + b + 2)).take c).all isTldChar
                && boundaryAt l (a + b + 2 + c)

/-- Whether `pat` occurs at the front of `l`. -/
def prefixMatch : List Char → List Char → Bool
  | [], _ => true
  | _ :: _, [] => false
  | p :: ps, c :: cs => p == c && prefixMatch ps cs

/-- Python `pat in l` for strings: `pat` occurs as a contiguous
substring of `l`. -/
def containsSub (pat l : List Char) : Bool :=
  (List.range (l.length + 1)).any fun i => prefixMatch pat (l.drop i)

/-- Accumulator form of Python `str.split()` without arguments: split on
runs of whitespace, discarding empty pieces. `cur` holds the current
word reversed. -/
def wordsAux : List Char → List Char → List (List Char)
  | cur, [] => if cur = [] then [] else [cur.reverse]
  | cur, c :: cs =>
    if c.isWhitespace then
      if cur = [] then wordsAux [] cs else cur.reverse :: wordsAux [] cs
    else wordsAux (c :: cur) cs

/-- Python `value.split()`: the whitespace-separated words of `l`
(whitespace restricted to the ASCII set, which covers all inputs of
interest). -/
def pyWords (l : List Char) : List (List Char) := wordsAux [] l

/-- Python `'X' * n`. -/
def maskChars (n : Nat) : List Char := List.replicate n 'X'

/-- Python `key.upper()` (ASCII uppercasing, which covers every key the
masker builds a placeholder from). -/
def pyUpper (s : String) : String := String.mk (s.data.map Char.toUpper)

/-- Embedding of `mask_pii_value(key, value)`, the code's masker. Non-string values
are first converted to text; then the first applicable rule wins:
phone of length 10, aadhar of length 12, multi-word name, otherwise a
generic `[REDACTED_<KEY>]` placeholder. The Python indexings
`parts[0]`, `parts[-1]` are rendered through `head?`/`getLast?` with a
default that the guard `1 < parts.length` makes unreachable (see
`mask_pii_value?` for the version where they stay fallible). -/
def mask_pii_value (key : String) (v : PValue) : String :=
  let value := v.toText.data
  if key == ("phone") && value.length == 10 then
    String.mk (value.take 2 ++ maskChars 6 ++ value.drop (value.length - 2))
  else if key == ("aadhar") && value.length == 12 then
    String.mk (maskChars 8 ++ value.drop (value.length - 4))
  else if key == ("name") && 1 < (pyWords value).length then
    let p0 := (pyWords value).head?.getD []
    let pn := (pyWords value).getLast?.getD []
    String.mk (p0.take 1 ++ maskChars (p0.length - 1) ++ [' ']
      ++ pn.take 1 ++ maskChars (pn.length - 1))
  else
    ("[REDACTED_") ++ pyUpper key ++ ("]")

/-- Variant of `mask_pii_value` with the partial operations kept fallible: Python's
`parts[0][0]` and `parts[-1][0]` raise `IndexError` on empty lists, so
here they return `none`. Proved total (always `some`) below. -/
def mask_pii_value? (key : String) (v : PValue) : Option String :=
  let value := v.toText.data
  if key == ("phone") && value.length == 10 then
    some (String.mk (value.take 2 ++ maskChars 6 ++ value.drop (value.length - 2)))
  else if key == ("aadhar") && value.length == 12 then
    some (String.mk (maskChars 8 ++ value.drop (value.length - 4)))
  else if key == ("name") && 1 < (pyWords value).length then
    match (pyWords value).head?, (pyWords value).getLast? with
    | some p0, some pn =>
      match p0.head?, pn.head? with
      | some c0, some cn =>
        some (String.mk ([c0] ++ maskChars (p0.length - 1) ++ [' ']
          ++ [cn] ++ maskChars (pn.length - 1)))
      | _, _ => none
    | _, _ => none
  else
    some (("[REDACTED_") ++ pyUpper key ++ ("]"))

/-- Table `REGEX_PATTERNS`: name fragment paired with its compiled shape
rule, in the source's dictionary order. -/
def REGEX_PATTERNS : List (String × (List Char → Bool)) :=
  [(("aadhar"), boundedDigitRun 12),
   (("phone"), boundedDigitRun 10),
   (("passport"), boundedPassportRun)]

/-- Table `COMBINATORIAL_KEYS`: keys that are PII only when two or more are
present in a record. -/
def COMBINATORIAL_KEYS : List String :=
  [("name"), ("email"), ("address"), ("ip_address"), ("device_id")]

/-- One loop-1 step of `process_record`: the key is `upi_id`, or the
value is a string in which some pattern whose fragment occurs in the
key finds a match. -/
def shapeFlag (key : String) (v : PValue) : Bool :=
  match v with
  | .str s => REGEX_PATTERNS.any fun p => containsSub p.1.data key.data && p.2 s.data
  | _ => false

/-- Rule 1 or Rule 2 fires for this field. -/
def standaloneFlag (key : String) (v : PValue) : Bool :=
  key == ("upi_id") || shapeFlag key v

/-- The keys added to `keys_to_redact` by loop 1 (Rules 1 and 2), in
record order. -/
def rule12Keys (r : Record) : List String :=
  r.filterMap fun kv => if standaloneFlag kv.1 kv.2 then some kv.1 else none

/-- The email filter of Rule 3: a field named `email` counts only when
its value is a string accepted by `EMAIL_REGEX.match`. -/
def emailOkB (v : PValue) : Bool :=
  match v with
  | .str s => emailMatch s.data
  | _ => false

/-- List `combinatorial_keys_found`: the quasi-identifier keys present in the
record, an `email` key subject to the email filter. -/
def combinatorialKeysFound (r : Record) : List String :=
  r.filterMap fun kv =>
    if COMBINATORIAL_KEYS.contains kv.1 then
      if kv.1 == ("email") then
        if emailOkB kv.2 then some kv.1 else none
      else some kv.1
    else none

/-- Flag `is_pii` as computed by `process_record`: set by loop 1 on any
standalone hit, and by Rule 3 when two or more combinatorial keys are
found. -/
def is_pii (r : Record) : Bool :=
  r.any (fun kv => standaloneFlag kv.1 kv.2)
    || decide (2 ≤ (combinatorialKeysFound r).length)

/-- Set `keys_to_redact`: the union (as a duplicate-free list) of the loop-1
keys and, when Rule 3 fires, the combinatorial keys. -/
def keysToRedact (r : Record) : List String :=
  (rule12Keys r
    ++ if 2 ≤ (combinatorialKeysFound r).length then combinatorialKeysFound r
       else []).dedup

/-- The two dictionaries live in `process_record`: the caller's
`data_dict` and the working copy `redacted_dict`. Mutations of the
redaction loop are explicit state transitions on this pair, so that
the absence of writes to `data_dict` is visible. -/
structure PState where
  data_dict : Record
  redacted_dict : Record
deriving DecidableEq

/-- Python `d[k] = v` on a dict rendered as an association list: update
the entry in place when the key is present, append otherwise. -/
def dictSet (d : Record) (k : String) (v : PValue) : Record :=
  if d.any (fun kv => kv.1 == k) then
    d.map fun kv => if kv.1 == k then (kv.1, v) else kv
  else d ++ [(k, v)]

/-- Python `d[k]` as a lookup: the value of the first entry named `k`. -/
def dictFind? (d : Record) (k : String) : Option PValue :=
  (d.find? fun kv => kv.1 == k).map fun kv => kv.2

/-- Python `d[k]` with an (unreachable when `k ∈ d`) default. -/
def dictGetD (d : Record) (k : String) : PValue :=
  (dictFind? d k).getD (.str (""))

/-- Loop 3 of `process_record`: for each key to redact that is present
in `redacted_dict`, overwrite its value with the mask of its current
value. Only `redacted_dict` is ever written. -/
def redactLoop (st : PState) : List String → PState
  | [] => st
  | k :: ks =>
    redactLoop
      (if st.redacted_dict.any (fun kv => kv.1 == k) then
        { st with
          redacted_dict :=
            dictSet st.redacted_dict k
              (PValue.str (mask_pii_value k (dictGetD st.redacted_dict k))) }
      else st) ks

/-- The state of both dictionaries after `process_record` runs on `r`:
`redacted_dict` starts as a copy of `data_dict`, and the redaction loop
runs only when PII was found. -/
def process_record_state (r : Record) : PState :=
  if is_pii r then redactLoop ⟨r, r⟩ (keysToRedact r) else ⟨r, r⟩

/-- Embedding of `process_record(data_dict)`: the pair `(is_pii, redacted_dict)`. -/
def process_record (r : Record) : Bool × Record :=
  (is_pii r, (process_record_state r).redacted_dict)

/-- The redaction loop with its two fallible operations kept fallible:
the dict lookup `redacted_dict[key]` and the masker. -/
def redactLoop? (st : PState) : List String → Option PState
  | [] => some st
  | k :: ks =>
    if st.redacted_dict.any (fun kv => kv.1 == k) then
      match dictFind? st.redacted_dict k with
      | some v =>
        match mask_pii_value? k v with
        | some m =>
          redactLoop? ⟨st.data_dict, dictSet st.redacted_dict k (PValue.str m)⟩ ks
        | none => none
      | none => none
    else redactLoop? st ks

/-- Variant of `process_record` with fallible internals, proved below to succeed on
every record. -/
def process_record? (r : Record) : Option (Bool × Record) :=
  if is_pii r then
    match redactLoop? ⟨r, r⟩ (keysToRedact r) with
    | some st => some (is_pii r, st.redacted_dict)
    | none => none
  else some (is_pii r, r)

/-! ### Lemmas about the redaction loop -/

lemma redactLoop_data_dict : ∀ (ks : List String) (st : PState),
    (redactLoop st ks).data_dict = st.data_dict
  | [], _ => rfl
  | k :: ks, st => by
    rw [redactLoop]
    split
    · rw [redactLoop_data_dict ks]
    · rw [redactLoop_data_dict ks]

lemma map_fst_dictSet_of_mem (d : Record) (k : String) (v : PValue)
    (h : d.any (fun kv => kv.1 == k) = true) :
    (dictSet d k v).map Prod.fst = d.map Prod.fst := by
  rw [dictSet, if_pos h, List.map_map]
  refine List.map_congr_left fun kv _ => ?_
  simp only [Function.comp_apply]
  split <;> rfl

lemma redactLoop_keys : ∀ (ks : List String) (st : PState),
    ((redactLoop st ks).redacted_dict).map Prod.fst = st.redacted_dict.map Prod.fst
  | [], _ => rfl
  | k :: ks, st => by
    rw [redactLoop]
    by_cases h : st.redacted_dict.any (fun kv => kv.1 == k) = true
    · rw [if_pos h, redactLoop_keys ks]
      exact map_fst_dictSet_of_mem _ _ _ h
    · rw [if_neg h, redactLoop_keys ks]

lemma mem_dictSet_of_ne (d : Record) (k : String) (v : PValue)
    (kv : String × PValue) (hne : kv.1 ≠ k) (h : kv ∈ d) : kv ∈ dictSet d k v := by
  rw [dictSet]
  split
  · exact List.mem_map.mpr ⟨kv, h, by rw [if_neg (by simp [hne])]⟩
  · exact List.mem_append_left _ h

lemma redactLoop_mem : ∀ (ks : List String) (st : PState) (kv : String × PValue),
    kv ∈ st.redacted_dict → kv.1 ∉ ks → kv ∈ (redactLoop st ks).redacted_dict
  | [], _, _, h, _ => h
  | k :: ks, st, kv, h, hks => by
    have hne : kv.1 ≠ k := fun e => hks (by rw [e]; exact List.mem_cons_self _ _)
    have hks' : kv.1 ∉ ks := fun e => hks (List.mem_cons_of_mem _ e)
    rw [redactLoop]
    by_cases hc : st.redacted_dict.any (fun x => x.1 == k) = true
    · rw [if_pos hc]
      exact redactLoop_mem ks _ kv (mem_dictSet_of_ne _ _ _ _ hne h) hks'
    · rw [if_neg hc]
      exact redactLoop_mem ks _ kv h hks'

/-! ### Lemmas about the flagging rules -/

lemma mem_rule12Keys (r : Record) (kv : String × PValue) (h : kv ∈ r)
    (hf : standaloneFlag kv.1 kv.2 = true) : kv.1 ∈ rule12Keys r :=
  List.mem_filterMap.mpr ⟨kv, h, by rw [if_pos hf]⟩

lemma rule12Keys_eq_nil_iff (r : Record) :
    rule12Keys r = [] ↔ ∀ kv ∈ r, standaloneFlag kv.1 kv.2 = false := by
  rw [rule12Keys, List.filterMap_eq_nil_iff]
  constructor
  · intro h kv hkv
    have := h kv hkv
    by_cases hf : standaloneFlag kv.1 kv.2 = true
    · rw [if_pos hf] at this; cases this
    · exact Bool.eq_false_iff.mpr hf
  · intro h kv hkv
    rw [if_neg (by rw [h kv hkv]; exact Bool.false_ne_true)]

/-! ### Claim theorems -/

/-- C10: `process_record` never mutates the mapping it is given: after
the run, the caller's `data_dict` component of the state is the input
record unchanged — every write of the redaction loop targets the fresh
copy `redacted_dict`, which is what is returned. -/
theorem c10_no_mutation (r : Record) :
    (process_record_state r).data_dict = r
      ∧ (process_record r).2 = (process_record_state r).redacted_dict := by
  refine ⟨?_, rfl⟩
  rw [process_record_state]
  split
  · exact redactLoop_data_dict _ _
  · rfl

/-- C3: the redacted record has exactly the field names of the input
record (in order), and every field whose name is not in the flagged set
keeps its input value: its entry reappears untouched in the output. -/
theorem c3_frame (r : Record) :
    ((process_record r).2.map Prod.fst = r.map Prod.fst)
      ∧ ∀ kv ∈ r, kv.1 ∉ keysToRedact r → kv ∈ (process_record r).2 := by
  constructor
  · show ((process_record_state r).redacted_dict).map Prod.fst = _
    rw [process_record_state]
    split
    · exact redactLoop_keys _ _
    · rfl
  · intro kv hkv hnot
    show kv ∈ (process_record_state r).redacted_dict
    rw [process_record_state]
    split
    · exact redactLoop_mem _ _ _ hkv hnot
    · exact hkv

/-- Witness for C3 at a record with one flagged and one unflagged
field: the unflagged entry survives redaction unchanged. -/
theorem c3_frame_witness :
    (("order_id"), PValue.str ("77"))
      ∈ (process_record
          [(("phone"), PValue.str ("9876543210")),
           (("order_id"), PValue.str ("77"))]).2 :=
  (c3_frame _).2 _ (by decide) (by decide)

/-- C2: the boolean returned by `process_record` is true exactly when
the set of keys selected for redaction is non-empty. -/
theorem c2_ispii_iff_nonempty (r : Record) :
    (process_record r).1 = true ↔ keysToRedact r ≠ [] := by
  show is_pii r = true ↔ _
  rw [is_pii, keysToRedact, Bool.or_eq_true, List.any_eq_true, decide_eq_true_eq,
    Ne, List.dedup_eq_nil, List.append_eq_nil]
  constructor
  · rintro (⟨kv, hkv, hf⟩ | hlen) ⟨h1, h2⟩
    · have := mem_rule12Keys r kv hkv hf
      rw [h1] at this
      exact absurd this (List.not_mem_nil _)
    · rw [if_pos hlen] at h2
      have : (combinatorialKeysFound r).length = 0 := by rw [h2]; rfl
      omega
  · intro h
    by_cases hlen : 2 ≤ (combinatorialKeysFound r).length
    · exact Or.inr hlen
    · left
      by_contra hno
      push_neg at hno
      refine absurd ⟨?_, if_neg hlen⟩ h
      exact (rule12Keys_eq_nil_iff r).mpr fun kv hkv =>
        Bool.eq_false_iff.mpr (hno kv hkv)

/-- C7: after the email filter, a record with exactly one qualifying
quasi-identifier and no Rule 1/2 hit is classified not-PII with nothing
to redact; a record with two or more qualifying quasi-identifiers is
PII and every one of them is flagged. -/
theorem c7_combinatorial (r : Record) :
    ((combinatorialKeysFound r).length = 1 → rule12Keys r = [] →
        (process_record r).1 = false ∧ keysToRedact r = [])
      ∧ (2 ≤ (combinatorialKeysFound r).length →
        (process_record r).1 = true
          ∧ ∀ k ∈ combinatorialKeysFound r, k ∈ keysToRedact r) := by
  constructor
  · intro hlen hr
    have hone : ¬ 2 ≤ (combinatorialKeysFound r).length := by omega
    have hany : r.any (fun kv => standaloneFlag kv.1 kv.2) = false :=
      List.any_eq_false.mpr fun kv hkv => by
        rw [(rule12Keys_eq_nil_iff r).mp hr kv hkv]
        exact Bool.false_ne_true
    constructor
    · show is_pii r = false
      rw [is_pii, hany, Bool.false_or, decide_eq_false hone]
    · rw [keysToRedact, hr, if_neg hone]
      rfl
  · intro hlen
    constructor
    · show is_pii r = true
      rw [is_pii, Bool.or_eq_true, decide_eq_true_eq]
      exact Or.inr hlen
    · intro k hk
      rw [keysToRedact]
      rw [List.mem_dedup, if_pos hlen]
      exact List.mem_append_right _ hk

/-- Witness for C7: a lone name is not PII; a name together with a
valid email makes both flagged and the record PII. -/
theorem c7_combinatorial_witness :
    ((process_record [(("name"), PValue.str ("Rahul Kumar"))]).1 = false
        ∧ keysToRedact [(("name"), PValue.str ("Rahul Kumar"))] = [])
      ∧ ((process_record
            [(("name"), PValue.str ("Rahul Kumar")),
             (("email"), PValue.str ("r@x.com"))]).1 = true
          ∧ ("name")
            ∈ keysToRedact
              [(("name"), PValue.str ("Rahul Kumar")),
               (("email"), PValue.str ("r@x.com"))]) := by
  constructor
  · exact (c7_combinatorial _).1 (by decide) (by decide)
  · obtain ⟨h1, h2⟩ := (c7_combinatorial
      [(("name"), PValue.str ("Rahul Kumar")),
       (("email"), PValue.str ("r@x.com"))]).2 (by decide)
    exact ⟨h1, h2 _ (by decide)⟩

/-- The email shape exactly as the claim words it (for comparison with
the code's `emailMatch`): the value begins with a non-empty run of
local-part characters, `@`, a domain containing a dot, and a top-level
segment of at least 2 letters — with no word-boundary conditions. -/
def emailShapeSpec (l : List Char) : Bool :=
  (List.range (l.length + 1)).any fun a =>
    decide (1 ≤ a)
      && ((l.take a).all isLocalChar)
      && decide (a < l.length) && (l.getD a ' ' == '@')
      && (List.range (l.length + 1)).any fun b =>
        decide (1 ≤ b)
          && ((l.drop (a + 1)).take b).all isDomainChar
          && decide (a + 1 + b < l.length) && (l.getD (a + 1 + b) ' ' == '.')
          && (List.range (l.length + 1)).any fun c =>
            decide (2 ≤ c)
              && decide (a + b + 2 + c ≤ l.length)
              && ((l.drop (a + b + 2)).take c).all Char.isAlpha

/-- C6 counterexample: `".a@b.com"` begins with a string matching the
claim's permissive email shape (`.` is a local-part character), yet
`EMAIL_REGEX.match` rejects it — its leading `\b` requires the first
character to be a word character — so the `email` field does not count
toward the Rule 3 tally, against the claim's "iff". -/
theorem c6_counterexample :
    emailShapeSpec ((".a@b.com").data) = true
      ∧ emailOkB (PValue.str (".a@b.com")) = false
      ∧ ("email")
        ∉ combinatorialKeysFound
            [(("email"), PValue.str (".a@b.com")),
             (("name"), PValue.str ("Rahul Kumar"))] := by
  refine ⟨by decide, by decide, by decide⟩

/-- C6 amended: a field named `email` counts toward the Rule 3 tally
iff its value is a string accepted by `EMAIL_REGEX.match` — the email
shape anchored at the start of the value and further delimited by the
regex's word boundaries (first character a word character, match ending
at a word boundary, top-level segment drawn from letters and `|`). -/
theorem c6_amended_email_filter (r : Record) :
    ("email") ∈ combinatorialKeysFound r
      ↔ ∃ v, (("email"), v) ∈ r ∧ emailOkB v = true := by
  rw [combinatorialKeysFound, List.mem_filterMap]
  constructor
  · rintro ⟨kv, hkv, hf⟩
    by_cases hc : (COMBINATORIAL_KEYS.contains kv.1) = true
    case neg => rw [if_neg hc] at hf; cases hf
    rw [if_pos hc] at hf
    by_cases he : (kv.1 == ("email")) = true
    · rw [if_pos he] at hf
      by_cases ho : emailOkB kv.2 = true
      · have hk1 : kv.1 = ("email") := by simpa using he
        rw [if_pos ho] at hf
        refine ⟨kv.2, ?_, ho⟩
        rw [← hk1, Prod.mk.eta]
        exact hkv
      · rw [if_neg ho] at hf; cases hf
    · rw [if_neg he] at hf
      injection hf with h1
      exact absurd (by simp [h1] : (kv.1 == ("email")) = true) he
  · rintro ⟨v, hv, ho⟩
    refine ⟨(("email"), v), hv, ?_⟩
    simp [ho, COMBINATORIAL_KEYS]

/-- C1 counterexample: the number `9876543210` stored under the field
name `phone` has a textual form that contains a word-bounded 10-digit
run, and the name contains the fragment, yet `process_record` flags
nothing: the Rule 2 loop inspects only `isinstance(value, str)` values
and never converts non-strings to text. -/
theorem c1_counterexample :
    containsSub (("phone").data) (("phone").data) = true
      ∧ boundedDigitRun 10 ((PValue.num 9876543210).toText.data) = true
      ∧ keysToRedact [(("phone"), PValue.num 9876543210)] = []
      ∧ (process_record [(("phone"), PValue.num 9876543210)]).1 = false := by
  refine ⟨by decide, by decide, by decide, by decide⟩

/-- C1 amended: Rule 2 applies only to string values. For every record
and every field holding a string value, if some `REGEX_PATTERNS` entry
has its fragment occurring in the field name and its shape rule finds a
word-bounded match in the value, the field is flagged for redaction. -/
theorem c1_amended_string_rule2 (r : Record) (k s frag : String)
    (pat : List Char → Bool) (hmem : (k, PValue.str s) ∈ r)
    (hpat : (frag, pat) ∈ REGEX_PATTERNS)
    (hsub : containsSub frag.data k.data = true)
    (hmatch : pat s.data = true) : k ∈ keysToRedact r := by
  have hflag : standaloneFlag k (PValue.str s) = true := by
    rw [standaloneFlag, Bool.or_eq_true]
    right
    rw [shapeFlag, List.any_eq_true]
    exact ⟨(frag, pat), hpat, by simp [hsub, hmatch]⟩
  rw [keysToRedact, List.mem_dedup]
  exact List.mem_append_left _ (mem_rule12Keys r (k, PValue.str s) hmem hflag)

/-- Witness for the amended C1: a string-valued 10-digit phone is
flagged. -/
theorem c1_amended_witness :
    ("phone") ∈ keysToRedact [(("phone"), PValue.str ("9876543210"))] :=
  c1_amended_string_rule2 _ ("phone") ("9876543210") ("phone")
    (boundedDigitRun 10) (by decide)
    (by unfold REGEX_PATTERNS
        exact List.mem_cons_of_mem _ (List.mem_cons_self _ _))
    (by decide) (by decide)

/-! ### Masking lemmas -/

lemma mask_phone_eq (v : PValue) (h : v.toText.data.length = 10) :
    mask_pii_value ("phone") v
      = String.mk (v.toText.data.take 2 ++ List.replicate 6 'X'
          ++ v.toText.data.drop 8) := by
  simp [mask_pii_value, maskChars, h]

lemma mask_aadhar_eq (v : PValue) (h : v.toText.data.length = 12) :
    mask_pii_value ("aadhar") v
      = String.mk (List.replicate 8 'X' ++ v.toText.data.drop 8) := by
  simp [mask_pii_value, maskChars, h]

lemma mask_name_multi_eq (v : PValue) (h : 1 < (pyWords v.toText.data).length) :
    mask_pii_value ("name") v
      = String.mk
          (((pyWords v.toText.data).head?.getD []).take 1
            ++ List.replicate (((pyWords v.toText.data).head?.getD []).length - 1) 'X'
            ++ [' ']
            ++ ((pyWords v.toText.data).getLast?.getD []).take 1
            ++ List.replicate (((pyWords v.toText.data).getLast?.getD []).length - 1) 'X') := by
  simp [mask_pii_value, maskChars, h]

lemma mask_name_one_eq (v : PValue) (h : (pyWords v.toText.data).length = 1) :
    mask_pii_value ("name") v = ("[REDACTED_NAME]") := by
  have h' : ¬ 1 < (pyWords v.toText.data).length := by omega
  simp [mask_pii_value, maskChars, h']
  decide

/-- C4: the phone mask keeps the first 2 and last 2 characters of a
10-character value around six `X`s, and the aadhar mask is eight `X`s
followed by the last 4 characters of a 12-character value; at the
spec's example inputs the outputs are `98XXXXXX10` and `XXXXXXXX9012`. -/
theorem c4_mask_phone_aadhar (v : PValue) :
    (v.toText.data.length = 10 →
      mask_pii_value ("phone") v
        = String.mk (v.toText.data.take 2 ++ List.replicate 6 'X'
            ++ v.toText.data.drop 8))
      ∧ (v.toText.data.length = 12 →
        mask_pii_value ("aadhar") v
          = String.mk (List.replicate 8 'X' ++ v.toText.data.drop 8))
      ∧ mask_pii_value ("phone") (PValue.str ("9876543210")) = ("98XXXXXX10")
      ∧ mask_pii_value ("aadhar") (PValue.str ("123456789012"))
        = ("XXXXXXXX9012") :=
  ⟨mask_phone_eq v, mask_aadhar_eq v, by decide, by decide⟩

/-- Witness for C4 at a fresh 10-digit value. -/
theorem c4_mask_witness :
    mask_pii_value ("phone") (PValue.str ("5551234567"))
      = String.mk ((("5551234567").data.take 2) ++ List.replicate 6 'X'
          ++ ("5551234567").data.drop 8) :=
  (c4_mask_phone_aadhar (PValue.str ("5551234567"))).1 (by decide)

/-- C5: masking a name with two or more whitespace-separated parts
keeps the first character of the first and last parts and pads each
with (length − 1) `X`s; a one-part name falls through to the generic
placeholder `[REDACTED_NAME]`; `Rahul Kumar` becomes `RXXXX KXXXX`. -/
theorem c5_mask_name (v : PValue) :
    (1 < (pyWords v.toText.data).length →
      mask_pii_value ("name") v
        = String.mk
            (((pyWords v.toText.data).head?.getD []).take 1
              ++ List.replicate (((pyWords v.toText.data).head?.getD []).length - 1) 'X'
              ++ [' ']
              ++ ((pyWords v.toText.data).getLast?.getD []).take 1
              ++ List.replicate (((pyWords v.toText.data).getLast?.getD []).length - 1) 'X'))
      ∧ ((pyWords v.toText.data).length = 1 →
        mask_pii_value ("name") v = ("[REDACTED_NAME]"))
      ∧ mask_pii_value ("name") (PValue.str ("Rahul Kumar")) = ("RXXXX KXXXX") :=
  ⟨mask_name_multi_eq v, mask_name_one_eq v, by decide⟩

/-- Witness for C5 at a fresh one-part name. -/
theorem c5_mask_witness :
    mask_pii_value ("name") (PValue.str ("Rahul")) = ("[REDACTED_NAME]") :=
  (c5_mask_name (PValue.str ("Rahul"))).2.1 (by decide)

/-- C9: masked outputs cannot re-trigger the shape rules: the phone
mask of a 10-character value contains no word-bounded 10-digit run, and
the aadhar mask of a 12-character value contains no word-bounded
12-digit run — the `X` infix breaks every candidate digit run. -/
theorem c9_no_rematch (v : PValue) :
    (v.toText.data.length = 10 →
      boundedDigitRun 10 (mask_pii_value ("phone") v).data = false)
      ∧ (v.toText.data.length = 12 →
        boundedDigitRun 12 (mask_pii_value ("aadhar") v).data = false) := by
  constructor
  · intro ht
    rw [mask_phone_eq v ht]
    rw [Bool.eq_false_iff]
    intro hrun
    rw [boundedDigitRun, List.any_eq_true] at hrun
    obtain ⟨i, _, hcond⟩ := hrun
    rw [Bool.and_eq_true, Bool.and_eq_true, Bool.and_eq_true,
      decide_eq_true_eq] at hcond
    obtain ⟨⟨⟨hle, hdig⟩, _⟩, _⟩ := hcond
    have hlen : (v.toText.data.take 2 ++ List.replicate 6 'X'
        ++ v.toText.data.drop 8).length = 10 := by
      simp [List.length_append, List.length_take, List.length_drop, ht]
    rw [hlen] at hle
    have hi0 : i = 0 := by omega
    subst hi0
    rw [List.drop_zero, ← hlen, List.take_length] at hdig
    have hx : 'X' ∈ v.toText.data.take 2 ++ List.replicate 6 'X'
        ++ v.toText.data.drop 8 :=
      List.mem_append_left _
        (List.mem_append_right _ (List.mem_replicate.mpr ⟨by decide, rfl⟩))
    have := List.all_eq_true.mp hdig 'X' hx
    exact absurd this (by decide)
  · intro ht
    rw [mask_aadhar_eq v ht]
    rw [Bool.eq_false_iff]
    intro hrun
    rw [boundedDigitRun, List.any_eq_true] at hrun
    obtain ⟨i, _, hcond⟩ := hrun
    rw [Bool.and_eq_true, Bool.and_eq_true, Bool.and_eq_true,
      decide_eq_true_eq] at hcond
    obtain ⟨⟨⟨hle, hdig⟩, _⟩, _⟩ := hcond
    have hlen : (List.replicate 8 'X' ++ v.toText.data.drop 8).length = 12 := by
      simp [List.length_append, List.length_drop, ht]
    rw [hlen] at hle
    have hi0 : i = 0 := by omega
    subst hi0
    rw [List.drop_zero, ← hlen, List.take_length] at hdig
    have hx : 'X' ∈ List.replicate 8 'X' ++ v.toText.data.drop 8 :=
      List.mem_append_left _ (List.mem_replicate.mpr ⟨by decide, rfl⟩)
    have := List.all_eq_true.mp hdig 'X' hx
    exact absurd this (by decide)

/-- Witness for C9 at the spec's example values. -/
theorem c9_no_rematch_witness :
    boundedDigitRun 10
        (mask_pii_value ("phone") (PValue.str ("9876543210"))).data = false
      ∧ boundedDigitRun 12
        (mask_pii_value ("aadhar") (PValue.str ("123456789012"))).data = false :=
  ⟨(c9_no_rematch (PValue.str ("9876543210"))).1 (by decide),
   (c9_no_rematch (PValue.str ("123456789012"))).2 (by decide)⟩

/-! ### Totality -/

lemma wordsAux_ne_nil : ∀ (l cur : List Char) (w : List Char),
    w ∈ wordsAux cur l → w ≠ []
  | [], cur, w, h => by
    rw [wordsAux] at h
    split at h
    · cases h
    · rename_i hc
      rw [List.mem_singleton] at h
      subst h
      simpa using hc
  | c :: cs, cur, w, h => by
    rw [wordsAux] at h
    split at h
    · split at h
      · exact wordsAux_ne_nil cs [] w h
      · rename_i hcur
        rcases List.mem_cons.mp h with h1 | h2
        · subst h1; simpa using hcur
        · exact wordsAux_ne_nil cs [] w h2
    · exact wordsAux_ne_nil cs (c :: cur) w h

/-- Every word Python's `split()` produces is non-empty, so the
indexings `parts[0][0]` and `parts[-1][0]` of the name mask are safe. -/
lemma pyWords_ne_nil (l w : List Char) (h : w ∈ pyWords l) : w ≠ [] :=
  wordsAux_ne_nil l [] w h

lemma mask_eq_some (key : String) (v : PValue) :
    mask_pii_value? key v = some (mask_pii_value key v) := by
  simp only [mask_pii_value?, mask_pii_value]
  by_cases h1 : (key == ("phone") && v.toText.data.length == 10) = true
  · rw [if_pos h1, if_pos h1]
  rw [if_neg h1, if_neg h1]
  by_cases h2 : (key == ("aadhar") && v.toText.data.length == 12) = true
  · rw [if_pos h2, if_pos h2]
  rw [if_neg h2, if_neg h2]
  by_cases h3 : (key == ("name") && decide (1 < (pyWords v.toText.data).length)) = true
  case neg => rw [if_neg h3, if_neg h3]
  rw [if_pos h3, if_pos h3]
  have hlen : 1 < (pyWords v.toText.data).length :=
    of_decide_eq_true ((Bool.and_eq_true _ _).mp h3).2
  obtain ⟨a, rest, hw⟩ : ∃ a rest, pyWords v.toText.data = a :: rest := by
    cases hpw : pyWords v.toText.data with
    | nil => rw [hpw] at hlen; simp at hlen
    | cons a rest => exact ⟨a, rest, rfl⟩
  have ha : a ≠ [] := pyWords_ne_nil _ _ (by rw [hw]; exact List.mem_cons_self a rest)
  have hne : (a :: rest : List (List Char)) ≠ [] := by simp
  have hlast : (a :: rest).getLast? = some ((a :: rest).getLast hne) :=
    List.getLast?_eq_getLast _ hne
  have hgne : (a :: rest).getLast hne ≠ [] :=
    pyWords_ne_nil _ _ (by rw [hw]; exact List.getLast_mem hne)
  obtain ⟨c0, a', ha'⟩ : ∃ c0 a', a = c0 :: a' := by
    cases a with
    | nil => exact absurd rfl ha
    | cons c0 a' => exact ⟨c0, a', rfl⟩
  obtain ⟨cn, g', hg'⟩ : ∃ cn g', (a :: rest).getLast hne = cn :: g' := by
    cases hg : (a :: rest).getLast hne with
    | nil => exact absurd hg hgne
    | cons cn g' => exact ⟨cn, g', rfl⟩
  rw [hw, hlast, hg', ha']
  rfl

lemma any_dictFind?_isSome (d : Record) (k : String)
    (h : d.any (fun kv => kv.1 == k) = true) : ∃ v, dictFind? d k = some v := by
  rw [dictFind?]
  obtain ⟨kv, hmem, hkv⟩ := List.any_eq_true.mp h
  obtain ⟨x, hx⟩ := Option.isSome_iff_exists.mp
    ((@List.find?_isSome _ d fun kv => kv.1 == k).mpr ⟨kv, hmem, hkv⟩)
  exact ⟨x.2, by rw [hx]; rfl⟩

lemma redactLoop_eq_some : ∀ (ks : List String) (st : PState),
    redactLoop? st ks = some (redactLoop st ks)
  | [], _ => rfl
  | k :: ks, st => by
    rw [redactLoop?, redactLoop]
    by_cases hc : st.redacted_dict.any (fun kv => kv.1 == k) = true
    · rw [if_pos hc, if_pos hc]
      obtain ⟨v, hv⟩ := any_dictFind?_isSome _ _ hc
      have hg : dictGetD st.redacted_dict k = v := by rw [dictGetD, hv]; rfl
      rw [hv]
      simp only [mask_eq_some, hg]
      exact redactLoop_eq_some ks _
    · rw [if_neg hc, if_neg hc]
      exact redactLoop_eq_some ks _

/-- C8: the classifier and the masker are total: the variants in which
every fallible operation (list indexing inside the name mask, the dict
lookup of the redaction loop) returns an `Option` always succeed, and
return exactly what the total embeddings compute — no value shape makes
either function fail. -/
theorem c8_totality :
    (∀ (key : String) (v : PValue),
        mask_pii_value? key v = some (mask_pii_value key v))
      ∧ ∀ r : Record, process_record? r = some (process_record r) := by
  refine ⟨mask_eq_some, fun r => ?_⟩
  rw [process_record?, process_record, process_record_state]
  by_cases h : is_pii r = true
  · rw [if_pos h, if_pos h, redactLoop_eq_some]
  · rw [if_neg h, if_neg h]

end Detector
